/-
Verification of the psi4-to-strain FFI pipeline of the bh_vis repository.

Shallow embedding of the numerical core shared by scripts/daisychain.py,
scripts/util-psi4-FFT-to-Strain.py, scripts/util-psi4-FFT-integration.py and
scripts/util-psi4_to_phase_amp_omega_FFI_strain_psi4check.py.

Conventions of the embedding:
 * Python ints are modelled as ℤ, double-precision floats as ℝ (exact reals),
   complex doubles as ℂ; parsed numeric file data is modelled as ℚ (concrete
   literal values).
 * External library calls (numpy FFT, scipy curve_fit, the `spherical`
   package) are either taken as function parameters or modelled by their
   documented mathematical behaviour; each such modelling is stated in the
   doc comment of the definition.
 * Python exceptions are modelled with `Except`, the error payloads as a
   structured inductive carrying exactly the data interpolated into the
   Python message strings.
-/
import Mathlib

namespace BHVis

/-! ## Mode index functions (daisychain.py lines 80-102) -/

/-- `get_index_from_modes` from daisychain.py (lines 80-95):
`return ell**2 + ell + em - ell_min**2`. -/
def get_index_from_modes (ell em ell_min : ℤ) : ℤ :=
  ell ^ 2 + ell + em - ell_min ^ 2

/-- `get_modes_from_index` from daisychain.py (lines 98-102):
`idx += ell_min**2; ell = int(np.sqrt(idx)); em = idx - ell**2 - ell`.
`int(np.sqrt(idx))` is modelled as the exact integer square root
(the floor of the real square root of a nonnegative integer). -/
def get_modes_from_index (idx ell_min : ℤ) : ℤ × ℤ :=
  let k := idx + ell_min ^ 2
  let ell := Int.sqrt k
  (ell, k - ell ^ 2 - ell)

/-- Helper: the integer square root of `k` is `l` whenever `l² ≤ k < (l+1)²`. -/
theorem int_sqrt_eq_of_sq_le_of_lt_sq {l k : ℤ} (hl : 0 ≤ l)
    (h1 : l ^ 2 ≤ k) (h2 : k < (l + 1) ^ 2) : Int.sqrt k = l := by
  have hk : 0 ≤ k := le_trans (by positivity) h1
  rw [Int.sqrt]
  have htoNat : (k.toNat : ℤ) = k := Int.toNat_of_nonneg hk
  have hlnat : ((l.toNat : ℤ)) = l := Int.toNat_of_nonneg hl
  have h1' : l.toNat * l.toNat ≤ k.toNat := by
    have : (l.toNat * l.toNat : ℤ) ≤ (k.toNat : ℤ) := by
      rw [htoNat]; push_cast [hlnat]; nlinarith
    exact_mod_cast this
  have h2' : k.toNat < (l.toNat + 1) ^ 2 := by
    have : (k.toNat : ℤ) < (((l.toNat + 1) : ℕ) ^ 2 : ℤ) := by
      rw [htoNat]; push_cast [hlnat]; nlinarith
    exact_mod_cast this
  have hle : l.toNat ≤ Nat.sqrt k.toNat := Nat.le_sqrt.mpr h1'
  have hlt : Nat.sqrt k.toNat < l.toNat + 1 := by
    have := Nat.sqrt_lt'.mpr h2'
    omega
  have : Nat.sqrt k.toNat = l.toNat := by omega
  rw [this, hlnat]

/-- Helper: bracketing of the integer square root of a nonnegative integer. -/
theorem int_sqrt_bracket (k : ℤ) (hk : 0 ≤ k) :
    0 ≤ Int.sqrt k ∧ Int.sqrt k ^ 2 ≤ k ∧ k < (Int.sqrt k + 1) ^ 2 := by
  rw [Int.sqrt]
  have htoNat : (k.toNat : ℤ) = k := Int.toNat_of_nonneg hk
  refine ⟨Int.natCast_nonneg _, ?_, ?_⟩
  · have h := Nat.sqrt_le' k.toNat
    have : ((Nat.sqrt k.toNat ^ 2 : ℕ) : ℤ) ≤ (k.toNat : ℤ) := Int.ofNat_le.mpr h
    rw [htoNat] at this
    push_cast at this
    nlinarith
  · have h := Nat.lt_succ_sqrt' k.toNat
    have : (k.toNat : ℤ) < ((Nat.sqrt k.toNat + 1) ^ 2 : ℕ) := by
      exact_mod_cast Int.ofNat_lt.mpr h
    rw [htoNat] at this
    push_cast at this
    nlinarith

/-- C10: `get_modes_from_index` is a left inverse of `get_index_from_modes`:
for every integer pair `(l, m)` with `0 ≤ ℓ_min ≤ l` and `−l ≤ m ≤ l`,
applying `get_modes_from_index` to `get_index_from_modes l m ℓ_min` with the
same `ℓ_min` returns exactly `(l, m)`. -/
theorem get_modes_from_index_left_inverse (ell em ell_min : ℤ)
    (h0 : 0 ≤ ell_min) (h1 : ell_min ≤ ell) (h2 : -ell ≤ em) (h3 : em ≤ ell) :
    get_modes_from_index (get_index_from_modes ell em ell_min) ell_min = (ell, em) := by
  have hl : 0 ≤ ell := le_trans h0 h1
  simp only [get_modes_from_index, get_index_from_modes]
  have harg : ell ^ 2 + ell + em - ell_min ^ 2 + ell_min ^ 2 = ell ^ 2 + ell + em := by
    ring
  rw [harg]
  have hsqrt : Int.sqrt (ell ^ 2 + ell + em) = ell := by
    apply int_sqrt_eq_of_sq_le_of_lt_sq hl
    · nlinarith
    · nlinarith
  rw [hsqrt]
  have : ell ^ 2 + ell + em - ell ^ 2 - ell = em := by ring
  rw [this]

/-- Witness for C10 at the doctest input: index(3, 1, 2) = 9 maps back to (3, 1). -/
theorem get_modes_from_index_left_inverse_witness :
    get_modes_from_index (get_index_from_modes 3 1 2) 2 = (3, 1) :=
  get_modes_from_index_left_inverse 3 1 2 (by decide) (by decide) (by decide) (by decide)

/-- C5: on the domain of pairs `(l, m)` with `ℓ_min ≤ l ≤ ℓ_max` and
`−l ≤ m ≤ l` (for `0 ≤ ℓ_min ≤ ℓ_max`), `get_index_from_modes` is a bijection
onto the integer interval `[0, (ℓ_max+1)² − ℓ_min²)`; moreover
`get_index_from_modes 3 1 2 = 9` (the reference doctest value). -/
theorem get_index_from_modes_bijOn (ell_min ell_max : ℤ)
    (h0 : 0 ≤ ell_min) (h1 : ell_min ≤ ell_max) :
    Set.BijOn (fun p : ℤ × ℤ => get_index_from_modes p.1 p.2 ell_min)
      {p : ℤ × ℤ | ell_min ≤ p.1 ∧ p.1 ≤ ell_max ∧ -p.1 ≤ p.2 ∧ p.2 ≤ p.1}
      (Set.Ico 0 ((ell_max + 1) ^ 2 - ell_min ^ 2)) ∧
    get_index_from_modes 3 1 2 = 9 := by
  constructor
  · refine ⟨?_, ?_, ?_⟩
    · rintro ⟨l, m⟩ ⟨hmin, hmax, hm1, hm2⟩
      have h0l : 0 ≤ l := le_trans h0 hmin
      simp only [Set.mem_Ico, get_index_from_modes]
      constructor
      · nlinarith
      · nlinarith
    · rintro ⟨l, m⟩ ⟨hmin, hmax, hm1, hm2⟩ ⟨l', m'⟩ ⟨hmin', hmax', hm1', hm2'⟩ heq
      simp only [get_index_from_modes] at heq
      have h0l : 0 ≤ l := le_trans h0 hmin
      have h0l' : 0 ≤ l' := le_trans h0 hmin'
      have hll' : l = l' := by
        by_contra hne
        rcases lt_or_gt_of_ne hne with h | h
        · have hsucc : l + 1 ≤ l' := h
          nlinarith
        · have hsucc : l' + 1 ≤ l := h
          nlinarith
      subst hll'
      have hmm' : m = m' := by linarith
      rw [hmm']
    · rintro n ⟨hn0, hnlt⟩
      have hk0 : ell_min ^ 2 ≤ n + ell_min ^ 2 := by linarith
      have hknn : 0 ≤ n + ell_min ^ 2 := le_trans (by positivity) hk0
      have hklt : n + ell_min ^ 2 < (ell_max + 1) ^ 2 := by linarith
      obtain ⟨hsq0, hsq1, hsq2⟩ := int_sqrt_bracket (n + ell_min ^ 2) hknn
      set l := Int.sqrt (n + ell_min ^ 2) with hldef
      refine ⟨(l, n + ell_min ^ 2 - l ^ 2 - l), ⟨?_, ?_, ?_, ?_⟩, ?_⟩
      · -- ell_min ≤ l
        by_contra hcon
        push_neg at hcon
        have : l + 1 ≤ ell_min := hcon
        nlinarith
      · -- l ≤ ell_max
        by_contra hcon
        push_neg at hcon
        have : ell_max + 1 ≤ l := hcon
        nlinarith
      · -- -l ≤ m
        simp only
        nlinarith
      · -- m ≤ l
        simp only
        nlinarith
      · simp only [get_index_from_modes]
        ring
  · rfl

/-! ## FFI Integrator (daisychain.py `psi4_fft_to_strain`, lines 334-349) -/

/-- The per-bin FFI filter of daisychain.py lines 343-347:
```
if np.fabs(omega) <= np.fabs(freq_cutoff):
    fft_result[i] *= 1 / (1j * freq_cutoff) ** 2
else:
    fft_result[i] *= 1 / (1j * omega) ** 2
```
applied to one FFT bin value `v` whose angular frequency is `omega`. -/
noncomputable def ffi_filter_bin (freq_cutoff omega : ℝ) (v : ℂ) : ℂ :=
  if |omega| ≤ |freq_cutoff| then v * (1 / (Complex.I * freq_cutoff) ^ 2)
  else v * (1 / (Complex.I * omega) ^ 2)

/-- The denominator `(i·ω_eff)²` selected by the FFI branch of daisychain.py
lines 343-347 (the quantity the bin value is divided by). -/
noncomputable def ffi_denominator (freq_cutoff omega : ℝ) : ℂ :=
  if |omega| ≤ |freq_cutoff| then (Complex.I * freq_cutoff) ^ 2
  else (Complex.I * omega) ^ 2

/-- One strain mode of daisychain.py `psi4_fft_to_strain` lines 342-349:
forward FFT of the mode's ψ4 samples, per-bin FFI filtering, inverse FFT.
`np.fft.fft` and `np.fft.ifft` are external numpy calls, taken here as
function parameters. -/
noncomputable def psi4_strain_mode (fft ifft : List ℂ → List ℂ) (freq_cutoff : ℝ)
    (freq_list : List ℝ) (mode : List ℂ) : List ℂ :=
  ifft (List.zipWith (ffi_filter_bin freq_cutoff) freq_list (fft mode))

/-- The effective angular frequency as worded by the spec: the cutoff `ω₀`
when `|ω| ≤ |ω₀|` (boundary inclusive), and the magnitude `|ω|` otherwise.
Stated from the spec's words, for comparison against the code's filter. -/
noncomputable def omega_eff_spec (freq_cutoff omega : ℝ) : ℝ :=
  if |omega| ≤ |freq_cutoff| then freq_cutoff else |omega|

/-- C1: for every mode and every FFT bin, the bin's FFT value is multiplied by
`1/(i·ω_eff)²` where `ω_eff = ω₀` when `|ω| ≤ |ω₀|` (the boundary case takes
the cutoff branch) and `ω_eff = |ω|` (the magnitude, never the signed value)
otherwise; the strain mode is the inverse FFT of the result.  The code's else
branch writes the signed `ω`, but squaring makes it equal to the magnitude
form demanded by the reference. -/
theorem psi4_strain_mode_uses_omega_eff (fft ifft : List ℂ → List ℂ)
    (freq_cutoff : ℝ) (freq_list : List ℝ) (mode : List ℂ) :
    psi4_strain_mode fft ifft freq_cutoff freq_list mode =
      ifft (List.zipWith
        (fun omega v => v * (1 / (Complex.I * (omega_eff_spec freq_cutoff omega : ℝ)) ^ 2))
        freq_list (fft mode)) := by
  unfold psi4_strain_mode
  congr 1
  have hfun : ffi_filter_bin freq_cutoff =
      fun omega v => v * (1 / (Complex.I * (omega_eff_spec freq_cutoff omega : ℝ)) ^ 2) := by
    funext omega v
    unfold ffi_filter_bin omega_eff_spec
    by_cases h : |omega| ≤ |freq_cutoff|
    · rw [if_pos h, if_pos h]
    · rw [if_neg h, if_neg h]
      have habs : ((|omega| : ℝ) : ℂ) ^ 2 = ((omega : ℝ) : ℂ) ^ 2 := by
        rw [← Complex.ofReal_pow, ← Complex.ofReal_pow, sq_abs]
      have : (Complex.I * ((|omega| : ℝ) : ℂ)) ^ 2 = (Complex.I * (omega : ℂ)) ^ 2 := by
        rw [mul_pow, mul_pow, habs]
      rw [this]
  rw [hfun]

/-- C2: the zero-frequency bin always satisfies the `|ω| ≤ |ω₀|` condition and
is therefore scaled with the cutoff; each bin's value is divided by
`ffi_denominator`, and under the precondition `ω₀ ≠ 0` that denominator is
nonzero in both branches, so division by exactly zero frequency never occurs. -/
theorem ffi_denominator_ne_zero (freq_cutoff omega : ℝ) (h : freq_cutoff ≠ 0) :
    (∀ v : ℂ, ffi_filter_bin freq_cutoff omega v = v * (1 / ffi_denominator freq_cutoff omega)) ∧
    (omega = 0 → |omega| ≤ |freq_cutoff| ∧
      ffi_denominator freq_cutoff omega = (Complex.I * freq_cutoff) ^ 2) ∧
    ffi_denominator freq_cutoff omega ≠ 0 := by
  refine ⟨?_, ?_, ?_⟩
  · intro v
    unfold ffi_filter_bin ffi_denominator
    by_cases hb : |omega| ≤ |freq_cutoff|
    · rw [if_pos hb, if_pos hb]
    · rw [if_neg hb, if_neg hb]
  · intro h0
    subst h0
    have hb : |(0 : ℝ)| ≤ |freq_cutoff| := by
      rw [abs_zero]; exact abs_nonneg _
    exact ⟨hb, by rw [ffi_denominator, if_pos hb]⟩
  · unfold ffi_denominator
    by_cases hb : |omega| ≤ |freq_cutoff|
    · rw [if_pos hb]
      intro hc
      have : (freq_cutoff : ℂ) ≠ 0 := Complex.ofReal_ne_zero.mpr h
      have : (Complex.I * (freq_cutoff : ℂ)) ≠ 0 :=
        mul_ne_zero Complex.I_ne_zero this
      exact (pow_ne_zero 2 this) hc
    · rw [if_neg hb]
      push_neg at hb
      have homega : omega ≠ 0 := by
        intro h0
        rw [h0, abs_zero] at hb
        exact absurd hb (not_lt.mpr (abs_nonneg _))
      intro hc
      have : (omega : ℂ) ≠ 0 := Complex.ofReal_ne_zero.mpr homega
      have : (Complex.I * (omega : ℂ)) ≠ 0 := mul_ne_zero Complex.I_ne_zero this
      exact (pow_ne_zero 2 this) hc

/-- Witness for C2 at `ω₀ = 1`, `ω = 0`. -/
theorem ffi_denominator_ne_zero_witness :
    (∀ v : ℂ, ffi_filter_bin 1 0 v = v * (1 / ffi_denominator 1 0)) ∧
    ((0 : ℝ) = 0 → |(0 : ℝ)| ≤ |(1 : ℝ)| ∧
      ffi_denominator 1 0 = (Complex.I * (1 : ℝ)) ^ 2) ∧
    ffi_denominator 1 0 ≠ 0 :=
  ffi_denominator_ne_zero 1 0 one_ne_zero

/-! ## Angle Superposition (daisychain.py `swsh_summation_angles`, lines 365-382) -/

/-- daisychain.py `swsh_summation_angles` (lines 365-382).  The spin-weight −2
spherical harmonic table `swsh_arr` (shape `(n_modes, n_pts)`) is produced by
the external `spherical`/`quaternionic` libraries
(`spherical.Wigner(ELL_MAX, ELL_MIN).sYlm(S_MODE, quat_arr).T`) from the
colatitude and the azimuth set, and is taken here as an input table;
`mode_data` has shape `(n_modes, n_times)`.  The numpy line
`np.sum(mode_data[:, np.newaxis, :] * swsh_arr[:, :, np.newaxis], axis=0)`
broadcast-multiplies to the 3-array
`(mode, pt, time) ↦ mode_data[mode][time] * swsh_arr[mode][pt]`
and reduces over the mode axis; the embedding forms the same pairwise products
per `(pt, time)` cell and sums them over modes, returning the
`(n_pts, n_times)` table.  It is a plain function of its inputs: no state. -/
noncomputable def swsh_summation_angles (mode_data swsh_arr : List (List ℂ)) :
    List (List ℂ) :=
  let n_times := (mode_data.headD []).length
  let n_pts := (swsh_arr.headD []).length
  (List.range n_pts).map fun p =>
    (List.range n_times).map fun t =>
      ((mode_data.zip swsh_arr).map
        (fun ms => (ms.1.getD t 0) * (ms.2.getD p 0))).sum

/-- Helper: a mapped sum over zipped lists of equal length is the indexed sum. -/
theorem sum_map_zip {α β γ : Type} [AddCommMonoid γ] (f : α → β → γ) (da : α) (db : β) :
    ∀ (xs : List α) (ys : List β), xs.length = ys.length →
      ((xs.zip ys).map (fun p => f p.1 p.2)).sum =
        ∑ i ∈ Finset.range xs.length, f (xs.getD i da) (ys.getD i db) := by
  intro xs
  induction xs with
  | nil => intro ys _; simp
  | cons x xs ih =>
    intro ys hlen
    cases ys with
    | nil => simp at hlen
    | cons y ys =>
      simp only [List.zip_cons_cons, List.map_cons, List.sum_cons, List.length_cons]
      rw [Finset.sum_range_succ']
      simp only [List.getD_cons_succ, List.getD_cons_zero]
      rw [ih ys (by simpa using hlen)]
      rw [add_comm]

/-- Helper: `getD` of a map over `List.range` below the bound. -/
theorem getD_map_range {α : Type} (f : ℕ → α) (d : α) (n p : ℕ) (hp : p < n) :
    ((List.range n).map f).getD p d = f p := by
  rw [List.getD_eq_getElem?_getD, List.getElem?_map, List.getElem?_range hp]
  rfl

/-- C9: the Angle Superposition is a pure function of its inputs, and for every
azimuth point `p` and every time sample `t` its output entry equals the sum
over all modes of that mode's strain value at `t` multiplied by the mode's
spin-weight −2 spherical harmonic coefficient at that azimuth:
`h[p][t] = Σ_m strain_m(t) · sY_m(p)`. -/
theorem swsh_summation_angles_entry (mode_data swsh_arr : List (List ℂ))
    (hlen : mode_data.length = swsh_arr.length) (p t : ℕ)
    (hp : p < (swsh_arr.headD []).length) (ht : t < (mode_data.headD []).length) :
    ((swsh_summation_angles mode_data swsh_arr).getD p []).getD t 0 =
      ∑ m ∈ Finset.range mode_data.length,
        ((mode_data.getD m []).getD t 0) * ((swsh_arr.getD m []).getD p 0) := by
  unfold swsh_summation_angles
  rw [getD_map_range _ _ _ _ hp, getD_map_range _ _ _ _ ht]
  exact sum_map_zip (fun a b => a.getD t 0 * b.getD p 0) [] [] mode_data swsh_arr hlen

/-- Witness for C9 on a concrete 2-mode, 2-time, 1-point table. -/
theorem swsh_summation_angles_entry_witness :
    ((swsh_summation_angles [[1, 2], [3, 4]] [[10], [100]]).getD 0 []).getD 1 0 =
      ∑ m ∈ Finset.range ([[(1 : ℂ), 2], [3, 4]] : List (List ℂ)).length,
        ((([[(1 : ℂ), 2], [3, 4]] : List (List ℂ)).getD m []).getD 1 0) *
          ((([[(10 : ℂ)], [100]] : List (List ℂ)).getD m []).getD 0 0) :=
  swsh_summation_angles_entry [[1, 2], [3, 4]] [[10], [100]] rfl 0 1
    (by simp) (by simp)

/-! ## Phase unwrap (daisychain.py lines 218-232; util-psi4-FFT-to-Strain.py
lines 74-90; util-psi4-FFT-integration.py lines 86-98) -/

/-- One counter update as worded by the claim: decrement exactly when the
phase delta exceeds +π, increment exactly when it is below −π (strict
comparisons).  Stated from the claim's words, for comparison with the code. -/
noncomputable def wrap_step_spec (delta : ℝ) : ℤ :=
  if delta > Real.pi then -1 else if delta < -Real.pi then 1 else 0

/-- The claim's signed cycle counter at sample `i`: the accumulated
`wrap_step_spec` over the deltas of consecutive samples up to `i`
(no delta at sample 0). -/
noncomputable def cycle_counter_spec (phases : List ℝ) : ℕ → ℤ
  | 0 => 0
  | i + 1 => cycle_counter_spec phases i +
      wrap_step_spec (phases.getD (i + 1) 0 - phases.getD i 0)

/-- The unwrap as worded by the claim: cumulative phase at every sample equals
the instantaneous phase at that sample plus 2π times the current counter. -/
noncomputable def unwrap_spec (phases : List ℝ) : List ℝ :=
  (List.range phases.length).map fun i =>
    phases.getD i 0 + 2 * Real.pi * (cycle_counter_spec phases i : ℝ)

/-- Loop of `process_wave_data` in util-psi4-FFT-to-Strain.py lines 76-85
(the same loop appears in util-psi4-FFT-integration.py lines 86-98):
```
if phase - last_phase > np.pi: cycles -= 1
if phase - last_phase < -np.pi: cycles += 1
phases[index] += 2 * np.pi * cycles
last_phase = phase
```
with `cycles = 0` and `last_phase = phases[0]` initially; the state is the
pair (cycles, last_phase). -/
noncomputable def process_wave_data_unwrap_go (cycles : ℤ) (last : ℝ) :
    List ℝ → List ℝ
  | [] => []
  | ph :: rest =>
    let cycles1 := if ph - last > Real.pi then cycles - 1 else cycles
    let cycles2 := if ph - last < -Real.pi then cycles1 + 1 else cycles1
    (ph + 2 * Real.pi * (cycles2 : ℝ)) :: process_wave_data_unwrap_go cycles2 ph rest

/-- The unwrap of `process_wave_data` (util-psi4-FFT-to-Strain.py lines 74-90)
applied to the instantaneous phase sequence. -/
noncomputable def process_wave_data_unwrap (phases : List ℝ) : List ℝ :=
  process_wave_data_unwrap_go 0 (phases.headD 0) phases

/-- Unwrap loop of daisychain.py `psi4_phase_and_amplitude` lines 220-229:
```
if np.abs(ph - last_phase) >= np.pi:
    cycles += -1 if ph > 0 else 1
cum_phase[i] = ph + 2 * np.pi * cycles
last_phase = ph
```
note the non-strict `>=` and the direction taken from the sign of the new
phase `ph`, not from the sign of the delta. -/
noncomputable def psi4_phase_unwrap_go (cycles : ℤ) (last : ℝ) : List ℝ → List ℝ
  | [] => []
  | ph :: rest =>
    let cycles' := if |ph - last| ≥ Real.pi then
        (if ph > 0 then cycles - 1 else cycles + 1) else cycles
    (ph + 2 * Real.pi * (cycles' : ℝ)) :: psi4_phase_unwrap_go cycles' ph rest

/-- The unwrap segment of daisychain.py `psi4_phase_and_amplitude`
(lines 218-232) applied to the instantaneous phase sequence. -/
noncomputable def psi4_phase_unwrap (phases : List ℝ) : List ℝ :=
  psi4_phase_unwrap_go 0 (phases.headD 0) phases

/-- Helper: the two sequential `if`s of the strict unwrap loop add exactly one
`wrap_step_spec` of the delta to the counter. -/
theorem strict_step_eq (c : ℤ) (last ph : ℝ) :
    (if ph - last < -Real.pi then (if ph - last > Real.pi then c - 1 else c) + 1
     else (if ph - last > Real.pi then c - 1 else c)) =
      c + wrap_step_spec (ph - last) := by
  unfold wrap_step_spec
  have hpi := Real.pi_pos
  by_cases h1 : ph - last > Real.pi
  · have h2 : ¬(ph - last < -Real.pi) := by push_neg; linarith
    rw [if_neg h2, if_pos h1, if_pos h1]; ring
  · by_cases h2 : ph - last < -Real.pi
    · rw [if_pos h2, if_neg h1, if_neg h1, if_pos h2]
    · rw [if_neg h2, if_neg h1, if_neg h1, if_neg h2]; ring

/-- The claim's cycle counter over the tail `rest`, given the phase `last`
preceding it (sample 0 of `rest` contributes the delta against `last`). -/
noncomputable def cycle_counter_from (last : ℝ) (rest : List ℝ) : ℕ → ℤ
  | 0 => wrap_step_spec (rest.getD 0 0 - last)
  | i + 1 => cycle_counter_from last rest i +
      wrap_step_spec (rest.getD (i + 1) 0 - rest.getD i 0)

/-- Helper: shifting `cycle_counter_from` across a cons. -/
theorem cycle_counter_from_cons (last ph : ℝ) (rest : List ℝ) : ∀ i : ℕ,
    cycle_counter_from last (ph :: rest) (i + 1) =
      wrap_step_spec (ph - last) + cycle_counter_from ph rest i := by
  intro i
  induction i with
  | zero =>
    show cycle_counter_from last (ph :: rest) 0 +
        wrap_step_spec ((ph :: rest).getD 1 0 - (ph :: rest).getD 0 0) = _
    simp only [cycle_counter_from, List.getD_cons_succ, List.getD_cons_zero]
  | succ i ih =>
    show cycle_counter_from last (ph :: rest) (i + 1) +
        wrap_step_spec ((ph :: rest).getD (i + 2) 0 - (ph :: rest).getD (i + 1) 0) = _
    rw [ih]
    show _ = wrap_step_spec (ph - last) +
        (cycle_counter_from ph rest i + wrap_step_spec (rest.getD (i + 1) 0 - rest.getD i 0))
    simp only [List.getD_cons_succ]
    ring

/-- Helper: unfolding the strict unwrap loop into the claim's closed form. -/
theorem process_wave_data_unwrap_go_eq (rest : List ℝ) : ∀ (c : ℤ) (last : ℝ),
    process_wave_data_unwrap_go c last rest =
      (List.range rest.length).map fun i =>
        rest.getD i 0 + 2 * Real.pi * ((c + cycle_counter_from last rest i : ℤ) : ℝ) := by
  induction rest with
  | nil => intro c last; simp [process_wave_data_unwrap_go]
  | cons ph rest ih =>
    intro c last
    show (let cycles1 := if ph - last > Real.pi then c - 1 else c
          let cycles2 := if ph - last < -Real.pi then cycles1 + 1 else cycles1
          (ph + 2 * Real.pi * (cycles2 : ℝ)) ::
            process_wave_data_unwrap_go cycles2 ph rest) = _
    simp only []
    rw [strict_step_eq c last ph]
    rw [List.length_cons, List.range_succ_eq_map, List.map_cons, List.map_map]
    congr 1
    rw [ih (c + wrap_step_spec (ph - last)) ph]
    apply List.map_congr_left
    intro i _
    simp only [Function.comp_apply, List.getD_cons_succ]
    rw [cycle_counter_from_cons]
    push_cast
    ring

/-- Helper: the head-anchored counter agrees with the claim's counter. -/
theorem cycle_counter_from_headD (phases : List ℝ) : ∀ i : ℕ,
    cycle_counter_from (phases.headD 0) phases i = cycle_counter_spec phases i := by
  intro i
  induction i with
  | zero =>
    have hpi := Real.pi_pos
    have hhead : phases.getD 0 0 = phases.headD 0 := by
      cases phases <;> simp
    show wrap_step_spec (phases.getD 0 0 - phases.headD 0) = 0
    rw [hhead, sub_self]
    unfold wrap_step_spec
    rw [if_neg (by linarith), if_neg (by linarith)]
  | succ i ih =>
    show cycle_counter_from (phases.headD 0) phases i +
        wrap_step_spec (phases.getD (i + 1) 0 - phases.getD i 0) = _
    rw [ih]
    rfl

/-- C6 (amended): the unwrap of `process_wave_data`
(util-psi4-FFT-to-Strain.py and util-psi4-FFT-integration.py) maintains the
claim's signed cycle counter: the counter is decremented exactly when the
delta of consecutive samples exceeds +π and incremented exactly when it is
below −π, and the cumulative phase at every sample equals the instantaneous
phase plus 2π times the current counter. -/
theorem process_wave_data_unwrap_eq_spec (phases : List ℝ) :
    process_wave_data_unwrap phases = unwrap_spec phases := by
  unfold process_wave_data_unwrap unwrap_spec
  rw [process_wave_data_unwrap_go_eq]
  apply List.map_congr_left
  intro i _
  rw [cycle_counter_from_headD]
  push_cast
  ring

/-- C6 (counterexample): daisychain.py's unwrap variant wraps at a delta of
exactly +π (its test is `>=`, the claim's is strict `>`): on the phase
sequence `[0, π]` (the `np.angle` values of `[1, -1]`) it yields `[0, -π]`
while the claim's counter-based unwrap yields `[0, π]`. -/
theorem psi4_phase_unwrap_ne_spec :
    psi4_phase_unwrap [0, Real.pi] = [0, -Real.pi] ∧
    unwrap_spec [0, Real.pi] = [0, Real.pi] ∧
    psi4_phase_unwrap [0, Real.pi] ≠ unwrap_spec [0, Real.pi] := by
  have hpi := Real.pi_pos
  have c1 : ¬(|(0 : ℝ) - 0| ≥ Real.pi) := by
    rw [sub_zero, abs_zero]; linarith
  have c2 : |Real.pi - (0 : ℝ)| ≥ Real.pi := by
    rw [sub_zero, abs_of_pos hpi]
  have c3 : Real.pi > (0 : ℝ) := hpi
  have h1 : psi4_phase_unwrap [0, Real.pi] = [0, -Real.pi] := by
    unfold psi4_phase_unwrap
    simp only [List.headD_cons, psi4_phase_unwrap_go, if_neg c1, if_pos c2, if_pos c3]
    push_cast
    rw [List.cons.injEq, List.cons.injEq]
    refine ⟨by ring, by ring, rfl⟩
  have h2 : unwrap_spec [0, Real.pi] = [0, Real.pi] := by
    have cgt : ¬(Real.pi - (0 : ℝ) > Real.pi) := by push_neg; linarith
    have clt : ¬(Real.pi - (0 : ℝ) < -Real.pi) := by push_neg; linarith
    unfold unwrap_spec
    rw [show ([0, Real.pi] : List ℝ).length = 2 from rfl,
      show List.range 2 = [0, 1] from rfl]
    simp only [List.map_cons, List.map_nil, cycle_counter_spec, wrap_step_spec,
      List.getD_cons_zero, List.getD_cons_succ, if_neg cgt, if_neg clt]
    push_cast
    rw [List.cons.injEq, List.cons.injEq]
    refine ⟨by ring, by ring, rfl⟩
  refine ⟨h1, h2, ?_⟩
  intro hcontra
  rw [h1, h2, List.cons.injEq, List.cons.injEq] at hcontra
  have : -Real.pi = Real.pi := hcontra.2.1
  linarith

/-! ## Phase/Frequency Analyzer: quadratic fit
(daisychain.py `intercept_of_quadratic_fit` lines 235-279;
util-psi4-FFT-integration.py `fit_quadratic_and_output_min_omega` lines 105-123) -/

/-- Module constant `EXT_RAD = 100` of daisychain.py line 21. -/
noncomputable def EXT_RAD : ℝ := 100

/-- Module constant `INTERVAL = 200` of daisychain.py line 22. -/
noncomputable def INTERVAL : ℝ := 200

/-- The quadratic model `a*x**2 + b*x + c` of daisychain.py lines 251-262. -/
noncomputable def quadratic (a b c x : ℝ) : ℝ := a * x ^ 2 + b * x + c

/-- 3×3 determinant helper for the normal equations, rows
`(a b c; d e f; g h i)`. -/
noncomputable def det3 (a b c d e f g h i : ℝ) : ℝ :=
  a * (e * i - f * h) - b * (d * i - f * g) + c * (d * h - e * g)

/-- Modelled external call: `scipy.optimize.curve_fit(quadratic, ts, ys)`.
The quadratic model is linear in its parameters `(a, b, c)`, so the
least-squares problem curve_fit solves has the closed-form normal-equation
solution written here (Cramer's rule on the 3×3 normal matrix built from the
power sums of `ts`). -/
noncomputable def curve_fit_quadratic (ts ys : List ℝ) : ℝ × ℝ × ℝ :=
  let n : ℝ := ts.length
  let s1 := ts.sum
  let s2 := (ts.map fun t => t ^ 2).sum
  let s3 := (ts.map fun t => t ^ 3).sum
  let s4 := (ts.map fun t => t ^ 4).sum
  let sy := ys.sum
  let sty := (List.zipWith (fun t y => t * y) ts ys).sum
  let st2y := (List.zipWith (fun t y => t ^ 2 * y) ts ys).sum
  let d := det3 s4 s3 s2 s3 s2 s1 s2 s1 n
  (det3 st2y s3 s2 sty s2 s1 sy s1 n / d,
   det3 s4 st2y s2 s3 sty s1 s2 sy n / d,
   det3 s4 s3 st2y s3 s2 sty s2 s1 sy / d)

/-- Numpy boolean-mask window restriction
`arr[(lo <= time) & (time <= hi)]`: the mask is computed on the time array and
applied to both arrays (modelled by filtering the zipped pairs on the time
component, identical to the separate masking when the lengths agree, which
the callers check or assume). -/
noncomputable def window_mask (lo hi : ℝ) (time data : List ℝ) : List ℝ × List ℝ :=
  let pairs := (time.zip data).filter fun p => decide (lo ≤ p.1) && decide (p.1 ≤ hi)
  (pairs.map Prod.fst, pairs.map Prod.snd)

/-- daisychain.py `intercept_of_quadratic_fit` (lines 235-279): raises
`ValueError` when the time and data lengths differ; restricts both arrays to
the window `EXT_RAD ≤ t ≤ EXT_RAD + INTERVAL`, fits the quadratic by
nonlinear least squares (`curve_fit`), and returns `np.fabs(c)`.  The
diagnostic `print` of the vertex is output-only and omitted. -/
noncomputable def intercept_of_quadratic_fit (time data : List ℝ) : Except String ℝ :=
  if time.length = data.length then
    let filtered := window_mask EXT_RAD (EXT_RAD + INTERVAL) time data
    let params := curve_fit_quadratic filtered.1 filtered.2
    Except.ok |params.2.2|
  else Except.error "The lengths of time and data arrays must be equal."

/-- C4: the Phase/Frequency Analyzer returns `|c|` — the absolute value of the
fitted quadratic `a·t² + b·t + c` evaluated at `t = 0` — where `(a, b, c)` is
the least-squares quadratic fit of the angular-frequency data restricted to
the interior time window `[EXT_RAD, EXT_RAD + INTERVAL]`. -/
theorem intercept_of_quadratic_fit_abs_at_zero (time data : List ℝ)
    (h : time.length = data.length) (a b c : ℝ)
    (hfit : curve_fit_quadratic (window_mask EXT_RAD (EXT_RAD + INTERVAL) time data).1
      (window_mask EXT_RAD (EXT_RAD + INTERVAL) time data).2 = (a, b, c)) :
    intercept_of_quadratic_fit time data = Except.ok |quadratic a b c 0| := by
  unfold intercept_of_quadratic_fit
  rw [if_pos h]
  show Except.ok |(curve_fit_quadratic (window_mask EXT_RAD (EXT_RAD + INTERVAL) time data).1
      (window_mask EXT_RAD (EXT_RAD + INTERVAL) time data).2).2.2| = _
  rw [hfit]
  have : quadratic a b c 0 = c := by unfold quadratic; ring
  rw [this]

/-- Helper: a three-sample window restriction that keeps every sample. -/
theorem window_mask_all3 (lo hi t0 t1 t2 y0 y1 y2 : ℝ)
    (h0 : lo ≤ t0 ∧ t0 ≤ hi) (h1 : lo ≤ t1 ∧ t1 ≤ hi) (h2 : lo ≤ t2 ∧ t2 ≤ hi) :
    window_mask lo hi [t0, t1, t2] [y0, y1, y2] = ([t0, t1, t2], [y0, y1, y2]) := by
  unfold window_mask
  have hc0 : (decide (lo ≤ ((t0, y0) : ℝ × ℝ).1) && decide (((t0, y0) : ℝ × ℝ).1 ≤ hi)) = true := by
    rw [decide_eq_true h0.1, decide_eq_true h0.2]; rfl
  have hc1 : (decide (lo ≤ ((t1, y1) : ℝ × ℝ).1) && decide (((t1, y1) : ℝ × ℝ).1 ≤ hi)) = true := by
    rw [decide_eq_true h1.1, decide_eq_true h1.2]; rfl
  have hc2 : (decide (lo ≤ ((t2, y2) : ℝ × ℝ).1) && decide (((t2, y2) : ℝ × ℝ).1 ≤ hi)) = true := by
    rw [decide_eq_true h2.1, decide_eq_true h2.2]; rfl
  simp only [List.zip_cons_cons, List.zip_nil_right, List.filter_cons, hc0, hc1, hc2,
    if_true, List.filter_nil, List.map_cons, List.map_nil]

/-- Helper: the least-squares quadratic through the three samples
`(100, y), (200, y), (300, y)` is the constant `y` (coefficients `(0, 0, y)`). -/
theorem curve_fit_const3 (y : ℝ) :
    curve_fit_quadratic [100, 200, 300] [y, y, y] = (0, 0, y) := by
  unfold curve_fit_quadratic det3
  simp only [List.sum_cons, List.sum_nil, List.map_cons, List.map_nil,
    List.zipWith_cons_cons, List.zipWith_nil_right, List.length_cons, List.length_nil]
  norm_num
  refine ⟨by ring, by ring, ?_⟩
  rw [div_eq_iff (by norm_num)]
  ring

/-- Witness for C4 on the constant angular-frequency samples
`ω(100) = ω(200) = ω(300) = 1`. -/
theorem intercept_of_quadratic_fit_abs_at_zero_witness :
    intercept_of_quadratic_fit [100, 200, 300] [1, 1, 1] =
      Except.ok |quadratic 0 0 1 0| := by
  apply intercept_of_quadratic_fit_abs_at_zero [100, 200, 300] [1, 1, 1] rfl
  have hw : window_mask EXT_RAD (EXT_RAD + INTERVAL) [100, 200, 300] [1, 1, 1] =
      ([100, 200, 300], [1, 1, 1]) := by
    apply window_mask_all3 <;> constructor <;> norm_num [EXT_RAD, INTERVAL]
  rw [hw]
  exact curve_fit_const3 1

/-! ## Derivatives, phases, and the per-mode cutoff
(util-psi4-FFT-integration.py lines 49-123, 152-186;
daisychain.py lines 136-163, 200-232, 282-362) -/

/-- `compute_first_derivative` (util-psi4-FFT-integration.py lines 49-68; the
identical code is `first_time_derivative` in daisychain.py lines 136-163):
`dt = time[1] - time[0]`; second-order central differences in the interior,
first-order one-sided differences at the two endpoints.  Faithful for arrays
of length ≥ 2 (shorter arrays make the Python code raise on indexing). -/
noncomputable def compute_first_derivative (time data : List ℝ) : List ℝ :=
  let dt := time.getD 1 0 - time.getD 0 0
  let n := data.length
  (List.range n).map fun i =>
    if i = 0 then (data.getD 1 0 - data.getD 0 0) / dt
    else if i = n - 1 then (data.getD (n - 1) 0 - data.getD (n - 2) 0) / dt
    else (data.getD (i + 1) 0 - data.getD (i - 1) 0) / (2 * dt)

/-- `np.arctan2(y, x)`: the argument of the complex number `x + i·y`,
valued in `(−π, π]`. -/
noncomputable def arctan2 (y x : ℝ) : ℝ := Complex.arg ⟨x, y⟩

/-- `process_wave_data` of util-psi4-FFT-integration.py (lines 71-102):
amplitudes `np.sqrt(real**2 + imag**2)`, instantaneous phases
`np.arctan2(imag, real)`, the strict-delta cumulative-phase unwrap of lines
86-98, and the time derivative of the cumulative phase.  Returns
(amplitudes, cumulative phases, cumulative-phase derivative). -/
noncomputable def process_wave_data (time real imag : List ℝ) :
    List ℝ × List ℝ × List ℝ :=
  let phases := List.zipWith arctan2 imag real
  let cumulative_phases := process_wave_data_unwrap phases
  (List.zipWith (fun r i => Real.sqrt (r ^ 2 + i ^ 2)) real imag,
   cumulative_phases,
   compute_first_derivative time cumulative_phases)

/-- `fit_quadratic_and_output_min_omega` of util-psi4-FFT-integration.py
(lines 105-123): restrict both arrays to `100 ≤ t ≤ 300`, `curve_fit` the
quadratic, and return `np.abs(omega_at_time_zero)` where
`omega_at_time_zero = np.abs(quadratic(0.0, a, b, c))`. -/
noncomputable def fit_quadratic_and_output_min_omega (time omega : List ℝ) : ℝ :=
  let filtered := window_mask 100 300 time omega
  let params := curve_fit_quadratic filtered.1 filtered.2
  |(|quadratic params.1 params.2.1 params.2.2 0|)|

/-- The cutoff that the FFI loop of util-psi4-FFT-integration.py `main`
(lines 173-186) uses for mode `m`: `omega_0` is recomputed inside the
`for m` loop from that mode's own data
(`real, imag = mode_data[(l_value, m)]`, lines 174-176). -/
noncomputable def util_integration_cutoff_for_mode (time : List ℝ)
    (mode_data : ℤ → List ℝ × List ℝ) (m : ℤ) : ℝ :=
  fit_quadratic_and_output_min_omega time
    (process_wave_data time (mode_data m).1 (mode_data m).2).2.2

/-- Helper: `arctan2 0 1 = 0` (the sample `(1, 0)`). -/
theorem arctan2_zero_one : arctan2 0 1 = 0 := by
  unfold arctan2
  have h : (⟨1, 0⟩ : ℂ) = 1 := by
    apply Complex.ext <;> simp
  rw [h, Complex.arg_one]

/-- Helper: `arctan2 1 0 = π/2` (the sample `(0, 1)`). -/
theorem arctan2_one_zero : arctan2 1 0 = Real.pi / 2 := by
  unfold arctan2
  have h : (⟨0, 1⟩ : ℂ) = Complex.I := by
    apply Complex.ext <;> simp
  rw [h, Complex.arg_I]

/-- Helper: `arctan2 0 (-1) = π` (the sample `(−1, 0)`). -/
theorem arctan2_zero_neg_one : arctan2 0 (-1) = Real.pi := by
  unfold arctan2
  have h : (⟨-1, 0⟩ : ℂ) = -1 := by
    apply Complex.ext <;> simp
  rw [h, Complex.arg_neg_one]

/-- Helper: the strict unwrap is the identity on the constant phase list. -/
theorem unwrap_const3 : process_wave_data_unwrap [0, 0, 0] = [0, 0, 0] := by
  have hpi := Real.pi_pos
  have hgt : ¬((0 : ℝ) - 0 > Real.pi) := by push_neg; linarith
  have hlt : ¬((0 : ℝ) - 0 < -Real.pi) := by push_neg; linarith
  unfold process_wave_data_unwrap
  simp only [List.headD_cons, process_wave_data_unwrap_go, if_neg hgt, if_neg hlt]
  push_cast
  norm_num

/-- Helper: the strict unwrap is the identity on `[0, π/2, π]`
(every delta is π/2, inside the strict bounds). -/
theorem unwrap_ramp3 :
    process_wave_data_unwrap [0, Real.pi / 2, Real.pi] = [0, Real.pi / 2, Real.pi] := by
  have hpi := Real.pi_pos
  have hgt1 : ¬((0 : ℝ) - 0 > Real.pi) := by push_neg; linarith
  have hlt1 : ¬((0 : ℝ) - 0 < -Real.pi) := by push_neg; linarith
  have hgt2 : ¬(Real.pi / 2 - 0 > Real.pi) := by push_neg; linarith
  have hlt2 : ¬(Real.pi / 2 - 0 < -Real.pi) := by push_neg; linarith
  have hgt3 : ¬(Real.pi - Real.pi / 2 > Real.pi) := by push_neg; linarith
  have hlt3 : ¬(Real.pi - Real.pi / 2 < -Real.pi) := by push_neg; linarith
  unfold process_wave_data_unwrap
  simp only [List.headD_cons, process_wave_data_unwrap_go, if_neg hgt1, if_neg hlt1,
    if_neg hgt2, if_neg hlt2, if_neg hgt3, if_neg hlt3]
  push_cast
  norm_num

/-- Helper: the derivative stencil on three samples. -/
theorem compute_first_derivative_three (t0 t1 t2 y0 y1 y2 : ℝ) :
    compute_first_derivative [t0, t1, t2] [y0, y1, y2] =
      [(y1 - y0) / (t1 - t0), (y2 - y0) / (2 * (t1 - t0)), (y2 - y1) / (t1 - t0)] := by
  unfold compute_first_derivative
  simp only [List.length_cons, List.length_nil]
  rw [show (0 + 1 + 1 + 1 : ℕ) = 3 from rfl, show List.range 3 = [0, 1, 2] from rfl]
  simp only [List.map_cons, List.map_nil]
  norm_num

/-- Helper: `fit_quadratic_and_output_min_omega` on the constant samples
`ω(100) = ω(200) = ω(300) = y ≥ 0` returns `y`. -/
theorem fit_quadratic_min_omega_const3 (y : ℝ) (hy : 0 ≤ y) :
    fit_quadratic_and_output_min_omega [100, 200, 300] [y, y, y] = y := by
  simp only [fit_quadratic_and_output_min_omega,
    window_mask_all3 100 300 100 200 300 y y y
      (by norm_num) (by norm_num) (by norm_num),
    curve_fit_const3 y]
  have hq : quadratic 0 0 y 0 = y := by unfold quadratic; ring
  rw [hq, abs_of_nonneg hy, abs_of_nonneg hy]

/-- C3 (counterexample): util-psi4-FFT-integration.py recomputes the cutoff
inside its mode loop from each mode's own data: on a concrete dataset over
times [100, 200, 300], mode m=1 (samples (1,0),(0,1),(−1,0)) is integrated
with cutoff π/200 while mode m=2 (samples (1,0),(1,0),(1,0)) is integrated
with cutoff 0 — so the cutoff used by the Integrator is not a single
identical (2,2)-derived scalar across the modes it processes. -/
theorem util_integration_cutoff_for_mode_ne :
    util_integration_cutoff_for_mode [100, 200, 300]
        (fun m => if m = 2 then ([1, 1, 1], [0, 0, 0]) else ([1, 0, -1], [0, 1, 0])) 1 ≠
      util_integration_cutoff_for_mode [100, 200, 300]
        (fun m => if m = 2 then ([1, 1, 1], [0, 0, 0]) else ([1, 0, -1], [0, 1, 0])) 2 := by
  have hproj : ∀ (time re im : List ℝ),
      (process_wave_data time re im).2.2 =
        compute_first_derivative time
          (process_wave_data_unwrap (List.zipWith arctan2 im re)) := fun _ _ _ => rfl
  have h2 : util_integration_cutoff_for_mode [100, 200, 300]
      (fun m => if m = 2 then ([1, 1, 1], [0, 0, 0]) else ([1, 0, -1], [0, 1, 0])) 2 = 0 := by
    show fit_quadratic_and_output_min_omega [100, 200, 300]
        (process_wave_data [100, 200, 300]
          (if (2 : ℤ) = 2 then (([1, 1, 1], [0, 0, 0]) : List ℝ × List ℝ)
            else ([1, 0, -1], [0, 1, 0])).1
          (if (2 : ℤ) = 2 then (([1, 1, 1], [0, 0, 0]) : List ℝ × List ℝ)
            else ([1, 0, -1], [0, 1, 0])).2).2.2 = 0
    rw [if_pos rfl]
    rw [hproj]
    have hph : List.zipWith arctan2 [(0 : ℝ), 0, 0] [(1 : ℝ), 1, 1] = [0, 0, 0] := by
      simp only [List.zipWith_cons_cons, List.zipWith_nil_left, arctan2_zero_one]
    rw [hph, unwrap_const3, compute_first_derivative_three]
    have hd : [((0 : ℝ) - 0) / (200 - 100), (0 - 0) / (2 * (200 - 100)),
        (0 - 0) / (200 - 100)] = [(0 : ℝ), 0, 0] := by norm_num
    rw [hd]
    exact fit_quadratic_min_omega_const3 0 le_rfl
  have h1 : util_integration_cutoff_for_mode [100, 200, 300]
      (fun m => if m = 2 then ([1, 1, 1], [0, 0, 0]) else ([1, 0, -1], [0, 1, 0])) 1 =
        Real.pi / 200 := by
    show fit_quadratic_and_output_min_omega [100, 200, 300]
        (process_wave_data [100, 200, 300]
          (if (1 : ℤ) = 2 then (([1, 1, 1], [0, 0, 0]) : List ℝ × List ℝ)
            else ([1, 0, -1], [0, 1, 0])).1
          (if (1 : ℤ) = 2 then (([1, 1, 1], [0, 0, 0]) : List ℝ × List ℝ)
            else ([1, 0, -1], [0, 1, 0])).2).2.2 = Real.pi / 200
    rw [if_neg (by decide)]
    rw [hproj]
    have hph : List.zipWith arctan2 [(0 : ℝ), 1, 0] [(1 : ℝ), 0, -1] =
        [0, Real.pi / 2, Real.pi] := by
      simp only [List.zipWith_cons_cons, List.zipWith_nil_left, arctan2_zero_one,
        arctan2_one_zero, arctan2_zero_neg_one]
    rw [hph, unwrap_ramp3, compute_first_derivative_three]
    have hd : [(Real.pi / 2 - 0) / (200 - 100), (Real.pi - 0) / (2 * (200 - 100)),
        (Real.pi - Real.pi / 2) / (200 - 100)] =
          [Real.pi / 200, Real.pi / 200, Real.pi / 200] := by
      rw [List.cons.injEq, List.cons.injEq, List.cons.injEq]
      refine ⟨by ring, by ring, by ring, rfl⟩
    rw [hd]
    exact fit_quadratic_min_omega_const3 (Real.pi / 200) (by positivity)
  rw [h1, h2]
  positivity

/-! ## daisychain pipeline: shared cutoff -/

/-- Module constant `CUTTOFF_FACTOR = 0.75` of daisychain.py line 23. -/
noncomputable def CUTTOFF_FACTOR : ℝ := 0.75

/-- daisychain.py `psi4_phase_and_amplitude` (lines 200-232): `ValueError`
when the time and data lengths differ; otherwise amplitudes `np.abs(cmplx)`,
instantaneous phases `np.angle(cmplx)` (the complex argument), the
`>=`/sign-of-new-phase unwrap of lines 220-229, and the first time derivative
of the cumulative phase.  Returns (time, amplitudes, cum_phase, cum_phase_dt). -/
noncomputable def psi4_phase_and_amplitude (time : List ℝ) (cmplx : List ℂ) :
    Except String (List ℝ × List ℝ × List ℝ × List ℝ) :=
  if time.length = cmplx.length then
    let amplitudes := cmplx.map Complex.abs
    let phases := cmplx.map Complex.arg
    let cum_phase := psi4_phase_unwrap phases
    Except.ok (time, amplitudes, cum_phase, compute_first_derivative time cum_phase)
  else
    Except.error "The lengths of time and data arrays must be equal."

/-- daisychain.py `extract_min_omega_ell2_m2` (lines 282-303): the
phase/amplitude/angular-frequency chain on the (2,2) mode followed by
`intercept_of_quadratic_fit` on the angular frequency (`collection[3]`);
the optional text-file dump is external output and omitted. -/
noncomputable def extract_min_omega_ell2_m2 (time : List ℝ) (data_m2_l2 : List ℂ) :
    Except String ℝ := do
  let collection ← psi4_phase_and_amplitude time data_m2_l2
  intercept_of_quadratic_fit time collection.2.2.2

/-- Modelled external call: `np.fft.fftfreq(n, d) * 2 * np.pi` of
daisychain.py line 335: bin `k` holds `2π·k/(n·d)` for `k < ⌈n/2⌉` and
`2π·(k−n)/(n·d)` on the negative-frequency half. -/
noncomputable def fftfreq_2pi (n : ℕ) (d : ℝ) : List ℝ :=
  (List.range n).map fun k =>
    if k < (n + 1) / 2 then 2 * Real.pi * k / (n * d)
    else 2 * Real.pi * ((k : ℝ) - n) / (n * d)

/-- The (l, m) enumeration of the daisychain mode loop (lines 339-340):
l from ELL_MIN = 2 to ELL_MAX = 8, m from −l to l. -/
def mode_enum : List (ℤ × ℤ) :=
  (List.range' 2 7).flatMap fun l =>
    (List.range (2 * l + 1)).map fun j => ((l : ℤ), (j : ℤ) - (l : ℤ))

/-- daisychain.py `psi4_fft_to_strain` (lines 306-362).  Reading the input
directory and writing the result file are external I/O, so the time array and
mode table are parameters and the text dump is omitted; the diagnostic
`strain_modes_ddot` (second derivative, lines 352-354) does not affect the
returned strain and is omitted.  The cutoff `freq_cutoff` is computed once,
before the mode loop, as `CUTTOFF_FACTOR` times the (2,2)-derived minimum
omega; `freq_list` is computed once from the time array; each (l, m) mode in
loop order is FFI-filtered and inverse-transformed. -/
noncomputable def psi4_fft_to_strain (fft ifft : List ℂ → List ℂ)
    (time_arr : List ℝ) (psi4_modes_data : List (List ℂ)) :
    Except String (List ℝ × List (List ℂ)) := do
  let min_omega_l2m2 ← extract_min_omega_ell2_m2 time_arr
      (psi4_modes_data.getD (get_index_from_modes 2 2 2).toNat [])
  let freq_cutoff := CUTTOFF_FACTOR * min_omega_l2m2
  let freq_list := fftfreq_2pi time_arr.length (time_arr.getD 1 0 - time_arr.getD 0 0)
  Except.ok (time_arr, mode_enum.map fun lm =>
    psi4_strain_mode fft ifft freq_cutoff freq_list
      (psi4_modes_data.getD (get_index_from_modes lm.1 lm.2 2).toNat []))

/-- C3 (amended): in daisychain.py's Integrator the frequency cutoff is a
single scalar derived exactly once from the (2,2) mode before the mode loop
runs, and the identical value `CUTTOFF_FACTOR · min_omega` is used, read-only,
for every (l, m) mode the loop processes. -/
theorem psi4_fft_to_strain_single_cutoff (fft ifft : List ℂ → List ℂ)
    (time_arr : List ℝ) (modes : List (List ℂ)) :
    psi4_fft_to_strain fft ifft time_arr modes =
      (extract_min_omega_ell2_m2 time_arr
        (modes.getD (get_index_from_modes 2 2 2).toNat [])).map fun min_omega =>
          (time_arr, mode_enum.map fun lm =>
            psi4_strain_mode fft ifft (CUTTOFF_FACTOR * min_omega)
              (fftfreq_2pi time_arr.length (time_arr.getD 1 0 - time_arr.getD 0 0))
              (modes.getD (get_index_from_modes lm.1 lm.2 2).toNat [])) := by
  unfold psi4_fft_to_strain
  cases h : extract_min_omega_ell2_m2 time_arr
      (modes.getD (get_index_from_modes 2 2 2).toNat []) with
  | error e => simp [h, Except.map, Bind.bind, Except.bind]
  | ok w => simp [h, Except.map, Bind.bind, Except.bind]

/-! ## Mode Reader (daisychain.py lines 41-77;
util-psi4-FFT-to-Strain.py lines 4-39; util-psi4-FFT-integration.py lines
10-46; plotting loaders `load_data`) -/

/-- Reader failures, carrying exactly the data interpolated into the Python
error messages. -/
inductive ReadError where
  /-- numpy refuses ragged nested lists (daisychain line 58,
  util-psi4-FFT-integration line 29): `np.array(...)` on rows of unequal
  length raises `ValueError` on current numpy. -/
  | raggedRows : ReadError
  /-- daisychain lines 68-71:
  `ValueError(f"Inconsistent time data for ell={ell}. Expected {expected},
  got {got}.")`. -/
  | inconsistentLength (ell : ℤ) (expected got : ℕ) : ReadError
  /-- util-psi4-FFT-to-Strain lines 31-33: `"Error: time_data discrepency"`
  followed by `exit()`. -/
  | timeDataDiscrepancy : ReadError
  /-- numpy 2-D column indexing `data[:, idx]` raises
  `IndexError: index ... is out of bounds for axis 1` when the file has fewer
  columns than the 2l+1 mode extraction reads (daisychain line 75,
  `mode_data[(l, m)] = data[:, idx], data[:, idx + 1]` in the utils). -/
  | columnIndexOutOfBounds (ell : ℤ) : ReadError
  deriving DecidableEq, Repr

/-- A parsed row table is rectangular when every row has the first row's
column count. -/
def npRectangular (rows : List (List ℚ)) : Bool :=
  rows.all fun r => r.length = (rows.headD []).length

/-- Modelled external call: `np.array(rows)` on a list of parsed rows.
Numpy builds the 2-D float array only when the rows are rectangular; on
ragged input the whole call fails (`ValueError` "setting an array element
with a sequence … inhomogeneous shape" on current numpy; older numpy builds
a 1-D object array on which the subsequent 2-D indexing `data[:, 0]` raises
`IndexError` — either way the whole file fails). -/
def npArray2d (rows : List (List ℚ)) : Except ReadError (List (List ℚ)) :=
  if npRectangular rows then Except.ok rows else Except.error ReadError.raggedRows

/-- Keep, per distinct time value (column 0), the first row carrying it, in
order of first appearance. -/
def dedupFirstByTime (rows : List (List ℚ)) : List (List ℚ) :=
  rows.foldl
    (fun acc r => if acc.any fun r2 => r2.headD 0 = r.headD 0 then acc else acc ++ [r]) []

/-- Insertion of a row into a time-sorted row list. -/
def insertByTime (r : List ℚ) : List (List ℚ) → List (List ℚ)
  | [] => [r]
  | r2 :: rest =>
    if r.headD 0 ≤ r2.headD 0 then r :: r2 :: rest else r2 :: insertByTime r rest

/-- Sort rows by their time column (`np.argsort(data[:, 0])` reindexing;
numpy's default sort is unstable, so the order among duplicate times is
unspecified — modelled as a stable insertion sort by time). -/
def sortByTime (rows : List (List ℚ)) : List (List ℚ) :=
  rows.foldr insertByTime []

/-- daisychain lines 60-63: `np.unique(data[:, 0], return_index=True)`
followed by `data[index]`: for each distinct time, the first original row
with that time, ordered by increasing time. -/
def uniqueByTime (rows : List (List ℚ)) : List (List ℚ) :=
  sortByTime (dedupFirstByTime rows)

/-- Insertion of a rational into a sorted list. -/
def insertRatSorted (x : ℚ) : List ℚ → List ℚ
  | [] => [x]
  | y :: rest => if x ≤ y then x :: y :: rest else y :: insertRatSorted x rest

/-- The sorted distinct values of a list (`np.unique(xs)`). -/
def npUniqueVals (xs : List ℚ) : List ℚ :=
  (xs.foldl (fun acc x => if x ∈ acc then acc else acc ++ [x]) []).foldr
    insertRatSorted []

/-- Numpy `arr.all()` truthiness of a float array: every entry nonzero. -/
def npAll (xs : List ℚ) : Bool := xs.all fun x => x ≠ 0

/-- Number of distinct time values of a parsed file (the length of its
deduplicated time array). -/
def uLen (rows : List (List ℚ)) : ℕ := (uniqueByTime rows).length

/-- The 2l+1 (real, imaginary) column pairs of a mode file: for
k = 0..2l, the real part is column 1+2k and the imaginary part column 2+2k
(daisychain lines 73-76; `idx = 1 + 2*(m + l)` in the utils).  The highest
column read is 2+2·(2l) = 2·(2l+1), so numpy's `data[:, idx]` raises
`IndexError` unless every row has at least 2·(2l+1)+1 columns; the extraction
fails on narrower files and the `getD` fallbacks are never reached on the
success path. -/
def modeColumns (ell : ℤ) (data : List (List ℚ)) :
    Except ReadError (List (List (ℚ × ℚ))) :=
  if data.all fun r => 2 * (2 * ell + 1).toNat + 1 ≤ r.length then
    Except.ok ((List.range (2 * ell + 1).toNat).map fun k =>
      data.map fun r => (r.getD (1 + 2 * k) 0, r.getD (2 + 2 * k) 0))
  else Except.error (ReadError.columnIndexOutOfBounds ell)

/-- Loop body of daisychain.py `read_psi4_dir` (lines 54-76), one iteration
per l: `np.array` the parsed rows, sort/deduplicate by time, set
`consistant_length` on the first file (sentinel −1), raise `ValueError`
naming l when a later file's time-array length differs, collect the 2l+1
mode columns, and keep the last file's time array. -/
def read_psi4_dir_go (ell consistant_length : ℤ) (time_acc : List ℚ)
    (modes_acc : List (List (ℚ × ℚ))) :
    List (List (List ℚ)) → Except ReadError (List ℚ × List (List (ℚ × ℚ)))
  | [] => Except.ok (time_acc, modes_acc)
  | rows :: rest =>
    match npArray2d rows with
    | Except.error e => Except.error e
    | Except.ok data0 =>
      let data := uniqueByTime data0
      let time_data := data.map fun r => r.headD 0
      let cl := if consistant_length = -1 then (time_data.length : ℤ) else consistant_length
      if cl ≠ (time_data.length : ℤ) then
        Except.error (ReadError.inconsistentLength ell cl.toNat time_data.length)
      else
        match modeColumns ell data with
        | Except.error e => Except.error e
        | Except.ok cols => read_psi4_dir_go (ell + 1) cl time_data (modes_acc ++ cols) rest

/-- daisychain.py `read_psi4_dir` (lines 41-77).  Directory listing and file
reads are external I/O: the function takes the per-l parsed non-comment rows,
the j-th entry holding the file for l = ℓ_min + j. -/
def read_psi4_dir (ell_min : ℤ) (files : List (List (List ℚ))) :
    Except ReadError (List ℚ × List (List (ℚ × ℚ))) :=
  read_psi4_dir_go ell_min (-1) [] [] files

/-- Loop body of util-psi4-FFT-to-Strain.py `read_modes_data` (lines 13-37),
one iteration per l: `np.array` the rows; on the first file set
`unique_times = np.unique(data[:, 0])`; sort rows by time (duplicates kept);
the discrepancy check of line 31 compares only the aggregate truthiness
`time_data.all() != unique_times.all()`; then store the 2l+1 mode columns. -/
def read_modes_data_go (ell : ℤ) (unique_times : List ℚ)
    (modes_acc : List (List (ℚ × ℚ))) :
    List (List (List ℚ)) → Except ReadError (List ℚ × List (List (ℚ × ℚ)))
  | [] => Except.ok (unique_times, modes_acc)
  | rows :: rest =>
    match npArray2d rows with
    | Except.error e => Except.error e
    | Except.ok data0 =>
      let unique_times := if unique_times.length = 0
        then npUniqueVals (data0.map fun r => r.headD 0) else unique_times
      let data := sortByTime data0
      let time_data := data.map fun r => r.headD 0
      if npAll time_data ≠ npAll unique_times then
        Except.error ReadError.timeDataDiscrepancy
      else
        match modeColumns ell data with
        | Except.error e => Except.error e
        | Except.ok cols => read_modes_data_go (ell + 1) unique_times (modes_acc ++ cols) rest

/-- util-psi4-FFT-to-Strain.py `read_modes_data` (lines 4-39): the j-th entry
of `files` holds the parsed non-comment rows for l = 2 + j. -/
def read_modes_data (files : List (List (List ℚ))) :
    Except ReadError (List ℚ × List (List (ℚ × ℚ))) :=
  read_modes_data_go 2 [] [] files

/-- util-psi4-FFT-integration.py `read_psi4` (lines 10-46): the file read and
the filename-derived l are external inputs.  `np.array` the parsed rows
(the whole file fails when ragged), sort by time, drop duplicate times
keeping first occurrences, return the time column and the 2l+1 mode
columns. -/
def read_psi4 (l : ℤ) (rows : List (List ℚ)) :
    Except ReadError (List ℚ × List (List (ℚ × ℚ))) :=
  match npArray2d rows with
  | Except.error e => Except.error e
  | Except.ok data0 =>
    let data := dedupFirstByTime (sortByTime data0)
    match modeColumns l data with
    | Except.error e => Except.error e
    | Except.ok cols => Except.ok (data.map fun r => r.headD 0, cols)

/-- The malformed-row tolerance implemented in the plotting loaders
(`load_data`: plot-strain_sum.py lines 29-38, plot-strain_all_modes.py,
animation-strain_plot.py, strain_plt_3.0.py): keep exactly the rows whose
column count equals the first row's. -/
def load_data_filter (data : List (List ℚ)) : List (List ℚ) :=
  data.filter fun row => row.length = (data.headD []).length

/-- Helper: an `Except` whose `isOk` holds is an `Except.ok`. -/
theorem exists_ok_of_isOk {ε α : Type} {e : Except ε α} (h : e.isOk = true) :
    ∃ a, e = Except.ok a := by
  cases e with
  | error _ => simp [Except.isOk, Except.toBool] at h
  | ok a => exact ⟨a, rfl⟩

/-- Helper: the daisychain reader loop, entered with the recorded expected
length `L`, errors at the first later file whose deduplicated time-array
length differs, naming that file's l (the length check of lines 68-71 runs
before that file's column extraction, so only the already-accepted earlier
files need extractable mode columns). -/
theorem read_psi4_dir_go_error (j : ℕ) :
    ∀ (files : List (List (List ℚ))) (ell : ℤ) (L : ℕ) (tacc : List ℚ)
      (macc : List (List (ℚ × ℚ))),
      j < files.length →
      (∀ i, i ≤ j → npRectangular (files.getD i []) = true) →
      (∀ i, i < j → uLen (files.getD i []) = L) →
      (∀ i, i < j → (modeColumns (ell + i) (uniqueByTime (files.getD i []))).isOk = true) →
      uLen (files.getD j []) ≠ L →
      read_psi4_dir_go ell (L : ℤ) tacc macc files =
        Except.error (ReadError.inconsistentLength (ell + j) L
          (uLen (files.getD j []))) := by
  induction j with
  | zero =>
    intro files ell L tacc macc hlen hrect _ _ hne
    cases files with
    | nil => simp at hlen
    | cons rows rest =>
      have hr0 : npRectangular rows = true := by simpa using hrect 0 (le_refl 0)
      have hok : npArray2d rows = Except.ok rows := by
        unfold npArray2d; rw [if_pos hr0]
      have hne' : uLen rows ≠ L := by simpa using hne
      simp only [read_psi4_dir_go, hok, List.length_map]
      have hL : ¬((L : ℤ) = -1) := by omega
      rw [if_neg hL]
      have hchk : (L : ℤ) ≠ ((uniqueByTime rows).length : ℤ) := by
        exact_mod_cast Ne.symm hne'
      rw [if_pos hchk]
      simp only [List.getD_cons_zero, uLen, Nat.cast_zero, add_zero, Int.toNat_natCast]
  | succ j ih =>
    intro files ell L tacc macc hlen hrect hpre hcols hne
    cases files with
    | nil => simp at hlen
    | cons rows rest =>
      have hr0 : npRectangular rows = true := by simpa using hrect 0 (by omega)
      have hok : npArray2d rows = Except.ok rows := by
        unfold npArray2d; rw [if_pos hr0]
      have hlen0 : uLen rows = L := by simpa using hpre 0 (by omega)
      obtain ⟨cols, hc⟩ := exists_ok_of_isOk (e := modeColumns ell (uniqueByTime rows))
        (by simpa using hcols 0 (by omega))
      simp only [read_psi4_dir_go, hok, List.length_map]
      have hL : ¬((L : ℤ) = -1) := by omega
      rw [if_neg hL]
      have hchk : ¬((L : ℤ) ≠ ((uniqueByTime rows).length : ℤ)) := by
        push_neg
        exact_mod_cast hlen0.symm
      rw [if_neg hchk]
      simp only [hc]
      have hrec := ih rest (ell + 1) L ((uniqueByTime rows).map fun r => r.headD 0)
        (macc ++ cols)
        (by simpa using hlen)
        (fun i hi => by simpa using hrect (i + 1) (by omega))
        (fun i hi => by simpa using hpre (i + 1) (by omega))
        (fun i hi => by
          have h := hcols (i + 1) (by omega)
          rw [List.getD_cons_succ] at h
          have harith : ell + ((i + 1 : ℕ) : ℤ) = ell + 1 + (i : ℕ) := by
            push_cast; ring
          rw [harith] at h
          exact h)
        (by simpa using hne)
      rw [hrec]
      simp only [List.getD_cons_succ]
      congr 2
      push_cast
      ring

/-- C7 (amended): daisychain.py's Mode Reader records the first file's
deduplicated time-array length as the expected length, and at the first
subsequent l whose time-array length differs it fails with the
`ValueError`-class inconsistency error naming that l (and the expected and
actual lengths), rather than truncating or padding. -/
theorem read_psi4_dir_inconsistent_names_ell (ell_min : ℤ)
    (files : List (List (List ℚ))) (j : ℕ)
    (hj : j < files.length)
    (hrect : ∀ i, i ≤ j → npRectangular (files.getD i []) = true)
    (hpre : ∀ i, i < j → uLen (files.getD i []) = uLen (files.getD 0 []))
    (hcols : ∀ i, i < j →
      (modeColumns (ell_min + i) (uniqueByTime (files.getD i []))).isOk = true)
    (hne : uLen (files.getD j []) ≠ uLen (files.getD 0 [])) :
    read_psi4_dir ell_min files =
      Except.error (ReadError.inconsistentLength (ell_min + j)
        (uLen (files.getD 0 [])) (uLen (files.getD j []))) := by
  cases j with
  | zero => exact absurd rfl hne
  | succ j' =>
    cases files with
    | nil => simp at hj
    | cons rows rest =>
      have hr0 : npRectangular rows = true := by simpa using hrect 0 (by omega)
      have hok : npArray2d rows = Except.ok rows := by
        unfold npArray2d; rw [if_pos hr0]
      obtain ⟨cols, hc⟩ := exists_ok_of_isOk
        (e := modeColumns ell_min (uniqueByTime rows))
        (by simpa using hcols 0 (by omega))
      unfold read_psi4_dir
      simp only [read_psi4_dir_go, hok, List.length_map, ite_true]
      have hchk : ¬(((uniqueByTime rows).length : ℤ) ≠ ((uniqueByTime rows).length : ℤ)) := by
        push_neg; rfl
      rw [if_neg hchk]
      simp only [hc]
      have hrec := read_psi4_dir_go_error j' rest (ell_min + 1) (uLen rows)
        ((uniqueByTime rows).map fun r => r.headD 0)
        ([] ++ cols)
        (by simpa using hj)
        (fun i hi => by simpa using hrect (i + 1) (by omega))
        (fun i hi => by have h := hpre (i + 1) (by omega); simpa using h)
        (fun i hi => by
          have h := hcols (i + 1) (by omega)
          rw [List.getD_cons_succ] at h
          have harith : ell_min + ((i + 1 : ℕ) : ℤ) = ell_min + 1 + (i : ℕ) := by
            push_cast; ring
          rw [harith] at h
          exact h)
        (by simpa using hne)
      unfold uLen at hrec
      rw [hrec]
      simp only [List.getD_cons_succ, List.getD_cons_zero, uLen]
      congr 2
      push_cast
      ring

/-- Witness for C7 (amended) on two synthetic files with 2 and 3 distinct
time values, the first wide enough (11 columns) for its l = 2 mode
extraction (the second file's extraction is never reached, as the check
precedes it): the run fails naming l = 3. -/
theorem read_psi4_dir_inconsistent_names_ell_witness :
    read_psi4_dir 2 [[[1, 1, 1, 1, 1, 1, 1, 1, 1, 1, 1],
        [2, 1, 1, 1, 1, 1, 1, 1, 1, 1, 1]], [[1], [2], [3]]] =
      Except.error (ReadError.inconsistentLength 3 2 3) := by
  have h := read_psi4_dir_inconsistent_names_ell 2
    [[[1, 1, 1, 1, 1, 1, 1, 1, 1, 1, 1], [2, 1, 1, 1, 1, 1, 1, 1, 1, 1, 1]],
      [[1], [2], [3]]] 1
    (by decide) (by decide) (by decide) (by decide) (by decide)
  rw [h]
  rfl

/-- C7 (counterexample): the Mode Reader of util-psi4-FFT-to-Strain.py does
not fail on mismatched sample counts: its discrepancy check compares only the
aggregate truthiness `time_data.all() != unique_times.all()`, so on two
synthetic full-width files (11 columns for l = 2, 15 for l = 3) with 2 and 3
samples it returns success, storing mode columns of different lengths
(2 and 3) side by side. -/
theorem read_modes_data_accepts_length_mismatch :
    (read_modes_data
      [[[1, 1, 1, 1, 1, 1, 1, 1, 1, 1, 1], [2, 1, 1, 1, 1, 1, 1, 1, 1, 1, 1]],
       [[1, 1, 1, 1, 1, 1, 1, 1, 1, 1, 1, 1, 1, 1, 1],
        [2, 1, 1, 1, 1, 1, 1, 1, 1, 1, 1, 1, 1, 1, 1],
        [3, 1, 1, 1, 1, 1, 1, 1, 1, 1, 1, 1, 1, 1, 1]]]).isOk = true ∧
    ((read_modes_data
      [[[1, 1, 1, 1, 1, 1, 1, 1, 1, 1, 1], [2, 1, 1, 1, 1, 1, 1, 1, 1, 1, 1]],
       [[1, 1, 1, 1, 1, 1, 1, 1, 1, 1, 1, 1, 1, 1, 1],
        [2, 1, 1, 1, 1, 1, 1, 1, 1, 1, 1, 1, 1, 1, 1],
        [3, 1, 1, 1, 1, 1, 1, 1, 1, 1, 1, 1, 1, 1, 1]]]).toOption.map
      fun r => ((r.2.getD 0 []).length, (r.2.getD 5 []).length)) = some (2, 3) :=
  ⟨rfl, rfl⟩

/-- C8 (amended): on a file with inconsistent row lengths the cited Mode
Readers fail the whole file (numpy rejects the ragged rows) — both
util-psi4-FFT-integration.py `read_psi4` and daisychain.py `read_psi4_dir` —
while the drop-malformed-rows tolerance lives in the plotting loaders'
`load_data`, whose filter keeps exactly the rows whose column count equals
the first row's (a sublist of the input: sound and complete, no other row
dropped). -/
theorem malformed_rows_dropped_only_in_loaders (l : ℤ)
    (rows data : List (List ℚ)) (files : List (List (List ℚ))) :
    (npRectangular rows = false →
      read_psi4 l rows = Except.error ReadError.raggedRows) ∧
    (npRectangular rows = false →
      read_psi4_dir l (rows :: files) = Except.error ReadError.raggedRows) ∧
    List.Sublist (load_data_filter data) data ∧
    (∀ r ∈ load_data_filter data, r.length = (data.headD []).length) ∧
    (∀ r ∈ data, r.length = (data.headD []).length → r ∈ load_data_filter data) := by
  refine ⟨?_, ?_, ?_, ?_, ?_⟩
  · intro h
    have herr : npArray2d rows = Except.error ReadError.raggedRows := by
      unfold npArray2d
      rw [h]
      rfl
    unfold read_psi4
    rw [herr]
  · intro h
    have herr : npArray2d rows = Except.error ReadError.raggedRows := by
      unfold npArray2d
      rw [h]
      rfl
    unfold read_psi4_dir
    simp only [read_psi4_dir_go, herr]
  · exact List.filter_sublist _
  · intro r hr
    exact of_decide_eq_true (List.mem_filter.mp hr).2
  · intro r hr hlen
    exact List.mem_filter.mpr ⟨hr, decide_eq_true hlen⟩

/-- Witness for C8 (amended) on a ragged two-row file. -/
theorem malformed_rows_dropped_only_in_loaders_witness :
    read_psi4 2 [[1, 2], [1]] = Except.error ReadError.raggedRows ∧
    List.Sublist (load_data_filter [[1, 2], [1]]) [[1, 2], [1]] := by
  have h := malformed_rows_dropped_only_in_loaders 2 [[1, 2], [1]] [[1, 2], [1]] []
  exact ⟨h.1 (by decide), h.2.2.1⟩

/-- C8 (counterexample): on a file whose well-formed row has the full 11
columns an l = 2 read needs but whose second row is truncated, `read_psi4`
fails the whole file instead of dropping the malformed row — while reading
the same file with the malformed row dropped first (the behaviour the claim
describes) succeeds. -/
theorem read_psi4_fails_whole_ragged_file :
    read_psi4 2 [[1, 1, 1, 1, 1, 1, 1, 1, 1, 1, 1], [2, 1]] =
      Except.error ReadError.raggedRows ∧
    (read_psi4 2
      (load_data_filter [[1, 1, 1, 1, 1, 1, 1, 1, 1, 1, 1], [2, 1]])).isOk = true :=
  ⟨rfl, rfl⟩

/-- Witness for C5 at the repository's configured range `ℓ_min = 2`,
`ℓ_max = 8`. -/
theorem get_index_from_modes_bijOn_witness :
    Set.BijOn (fun p : ℤ × ℤ => get_index_from_modes p.1 p.2 2)
      {p : ℤ × ℤ | 2 ≤ p.1 ∧ p.1 ≤ 8 ∧ -p.1 ≤ p.2 ∧ p.2 ≤ p.1}
      (Set.Ico 0 ((8 + 1) ^ 2 - 2 ^ 2)) ∧
    get_index_from_modes 3 1 2 = 9 :=
  get_index_from_modes_bijOn 2 8 (by decide) (by decide)

end BHVis
